import Mathlib

/-!
Shallow embedding of the Sudoku-Solver-AR rendering core: the `Painter`
operations of `src/Painter.cpp` and the line-drawing / debug-overlay helpers of
`src/sudoku_solver_ar.cpp`.

Conventions of the embedding:
* `float` arithmetic of the C++ source is modelled as exact arithmetic — over
  `ℚ` where no trigonometry is involved (Painter, Hough rescale) and over `ℝ`
  where `cosf`/`sinf`/`M_PI` appear (the line clipper).  Division follows
  Lean's convention `a / 0 = 0`.
* Machine integers (`unsigned int`, `unsigned char`, `unsigned short`) are
  modelled as `ℕ`; the 16-bit Hough cells are read little-endian from the
  byte buffer exactly as the `reinterpret_cast<const unsigned short*>` does on
  the x86 targets the program builds for.
* GPU side effects are abstracted: a draw call is recorded as a value (the
  vertex data the source computes), and the rasterizer used by `ExtractImage`
  is an uninterpreted parameter `render` — everything up to the point where
  pixels leave the CPU is embedded faithfully from the source.
-/

/-- `Image` of `Image.h` as used in the sources: width, height and a byte
buffer, 3 bytes per pixel.  An empty buffer is the "no data" sentinel. -/
structure Image where
  width : ℕ
  height : ℕ
  data : List ℕ
deriving Repr, DecidableEq

/-- `Point` of `Geometry.h`: float pixel coordinates, embedded over `ℚ`. -/
structure Point where
  x : ℚ
  y : ℚ
deriving Repr, DecidableEq

/-! ## Painter coordinate conversion (`Painter.cpp`, `DrawImage` / `DrawLine`)

`DrawImage` computes `left = x / windowWidth` … then `left * 2 - 1` etc.;
`DrawLine` computes `(x1 / windowWidth) * 2 - 1` and
`1 - (y1 / windowHeight) * 2` directly.  Both are the same pixel-to-NDC map. -/

/-- The x pixel-to-NDC conversion of `Painter::DrawLine` (line 102):
`(px / windowWidth) * 2 - 1`. -/
def ndcX (windowWidth px : ℚ) : ℚ := (px / windowWidth) * 2 - 1

/-- The y pixel-to-NDC conversion of `Painter::DrawLine` (line 102):
`1 - (py / windowHeight) * 2`. -/
def ndcY (windowHeight py : ℚ) : ℚ := 1 - (py / windowHeight) * 2

/-- The four NDC corner coordinates `(left, right, top, bottom)` computed by
`Painter::DrawImage` lines 38–46. -/
def drawImageNDC (windowWidth windowHeight x y width height : ℚ) :
    ℚ × ℚ × ℚ × ℚ :=
  let left := x / windowWidth
  let right := left + width / windowWidth
  let top := y / windowHeight
  let bottom := top + height / windowHeight
  (left * 2 - 1, right * 2 - 1, 1 - top * 2, 1 - bottom * 2)

/-! ## `Painter::ExtractImage` (`Painter.cpp` lines 132–234) -/

/-- The vertex buffer built by `Painter::ExtractImage` lines 145–158: for each
grid row `y < 4` and column `x < 4` it pushes position
`(-1 + x*2/3, -1 + y*2/3, 0)` and texture coordinate
`(srcPoints[y*4+x].x * srcPointScaleX, srcPoints[y*4+x].y * srcPointScaleY)`. -/
def extractVertices (srcPoints : List Point) (srcPointScaleX srcPointScaleY : ℚ) :
    List ℚ :=
  (List.range 4).flatMap fun y =>
    (List.range 4).flatMap fun x =>
      let p := srcPoints.getD (y * 4 + x) ⟨0, 0⟩
      [-1 + (x : ℚ) * 2 / 3, -1 + (y : ℚ) * 2 / 3, 0,
       p.x * srcPointScaleX, p.y * srcPointScaleY]

/-- The fixed index buffer of `Painter::ExtractImage` lines 160–179. -/
def extractIndices : List ℕ :=
  [0, 1, 5,
   0, 5, 4,
   1, 2, 6,
   1, 6, 5,
   2, 3, 7,
   2, 7, 6,
   4, 5, 9,
   4, 9, 8,
   5, 6, 10,
   5, 10, 9,
   6, 7, 11,
   6, 11, 10,
   8, 9, 13,
   8, 13, 12,
   9, 10, 14,
   9, 14, 13,
   10, 11, 15,
   10, 15, 14]

/-- The destination-grid x coordinate of mesh vertex `i` (row-major order,
column `i % 4`): the value `-1 + (i % 4) * 2/3` pushed at line 150. -/
def meshPosX (i : ℕ) : ℚ := -1 + ((i % 4 : ℕ) : ℚ) * 2 / 3

/-- The destination-grid y coordinate of mesh vertex `i` (row-major order,
row `i / 4`): the value `-1 + (i / 4) * 2/3` pushed at line 151. -/
def meshPosY (i : ℕ) : ℚ := -1 + ((i / 4 : ℕ) : ℚ) * 2 / 3

/-- Twice the signed area of triangle `t` of the index buffer, measured with
the destination-grid vertex positions; its sign is the triangle's winding. -/
def triCross (t : ℕ) : ℚ :=
  let a := extractIndices.getD (3 * t) 0
  let b := extractIndices.getD (3 * t + 1) 0
  let c := extractIndices.getD (3 * t + 2) 0
  (meshPosX b - meshPosX a) * (meshPosY c - meshPosY a) -
    (meshPosX c - meshPosX a) * (meshPosY b - meshPosY a)

/-- `Painter::ExtractImage` lines 132–234.  The two early returns (lines
138–141) are embedded exactly; past them the source renders the mesh into an
offscreen target and reads the pixels back into `dstImage`, setting
`dstImage.width`/`height` to the requested size and resizing the buffer to
`dstImageWidth * dstImageHeight * 3` bytes (lines 221–224).  The rasterizer is
the uninterpreted parameter `render`, applied to the vertex buffer, the index
buffer, the source image and the requested size. -/
def extractImage (render : List ℚ → List ℕ → Image → ℕ → ℕ → List ℕ)
    (srcImage : Image) (srcPoints : List Point)
    (srcPointScaleX srcPointScaleY : ℚ) (dstImage : Image)
    (dstImageWidth dstImageHeight : ℕ) : Image :=
  if srcImage.data = [] then dstImage
  else if srcPoints.length ≠ 16 then dstImage
  else
    { width := dstImageWidth
      height := dstImageHeight
      data := render (extractVertices srcPoints srcPointScaleX srcPointScaleY)
        extractIndices srcImage dstImageWidth dstImageHeight }

/-! ## `DrawHoughTransform` (`sudoku_solver_ar.cpp` lines 166–197) -/

/-- The 16-bit accumulator count of cell `i`: the source reads
`*reinterpret_cast<const unsigned short*>(&data[i*3])`, i.e. the two bytes
`data[3i]` (low) and `data[3i+1]` (high) little-endian. -/
def cellValue (data : List ℕ) (i : ℕ) : ℕ :=
  data.getD (3 * i) 0 + 256 * data.getD (3 * i + 1) 0

/-- The maximum accumulator count, computed by the loop of lines 169–175. -/
def houghMaxValue (frame : Image) : ℕ :=
  (List.range (frame.width * frame.height)).foldl
    (fun acc i => max acc (cellValue frame.data i)) 0

/-- The rescaled 8-bit value of one cell (lines 180–184): the source computes
`value = count * (255 / maximum)` in `float` and converts to `unsigned char`,
which truncates toward zero — `⌊count * (255 / maximum)⌋` for these
nonnegative values. -/
def houghRescaleValue (frame : Image) (i : ℕ) : ℕ :=
  (⌊(cellValue frame.data i : ℚ) * (255 / (houghMaxValue frame : ℚ))⌋).toNat

/-- The pixel buffer of `modifiedHTF` after the rescale loop of lines 177–189:
a copy of the input buffer in which, for every cell `x < width * height`, the
three bytes `3x`, `3x+1`, `3x+2` are overwritten with the rescaled value. -/
def drawHoughTransformData (frame : Image) : List ℕ :=
  (List.range frame.data.length).map fun j =>
    if j < 3 * (frame.width * frame.height) then houghRescaleValue frame (j / 3)
    else frame.data.getD j 0

/-! ## The line geometry clipper (`sudoku_solver_ar.cpp`, `DrawLines`,
lines 48–142)

`DrawLines` works in `float` with `cosf`/`sinf`/`fmodf`; the embedding is over
`ℝ` with `Real.cos`/`Real.sin` and a truncated-quotient `fmod`. -/

/-- `Line` of `Geometry.h`: Hesse-normal-form polar parameters `(ρ, θ)`. -/
structure Line where
  rho : ℝ
  theta : ℝ

/-- A clipped 2-point segment, before the placement offset `(x, y)` is added. -/
structure Seg where
  x1 : ℝ
  y1 : ℝ
  x2 : ℝ
  y2 : ℝ

/-- C's `fmodf a b`: `a - b * trunc (a / b)`, truncation toward zero. -/
noncomputable def cFmod (a b : ℝ) : ℝ :=
  a - b * (if 0 ≤ a / b then (⌊a / b⌋ : ℝ) else (⌈a / b⌉ : ℝ))

/-- The canonicalized `rho` (lines 57–61): negated when negative. -/
noncomputable def canonRho (rho : ℝ) : ℝ := if rho < 0 then -rho else rho

/-- The canonicalized `theta` (lines 57–61): when `rho < 0` the source sets
`theta = fmodf(theta + M_PI, 2 * M_PI)`. -/
noncomputable def canonTheta (rho theta : ℝ) : ℝ :=
  if rho < 0 then cFmod (theta + Real.pi) (2 * Real.pi) else theta

/-- The slope `m = -(cosf(theta) / sinf(theta))` of line 88. -/
noncomputable def lineM (theta : ℝ) : ℝ := -(Real.cos theta / Real.sin theta)

/-- The intercept term `b = -xPoint * m` of line 89, with
`xPoint = cosTheta * rho` (line 66). -/
noncomputable def lineB (rho theta : ℝ) : ℝ := -(Real.cos theta * rho) * lineM theta

/-- `leftVertical = yPoint + b` (line 93), with `yPoint = sinTheta * rho`. -/
noncomputable def leftVertical (rho theta : ℝ) : ℝ :=
  Real.sin theta * rho + lineB rho theta

/-- `topHorizontal = (-yPoint - b) / m` (line 94). -/
noncomputable def topHorizontal (rho theta : ℝ) : ℝ :=
  (-(Real.sin theta * rho) - lineB rho theta) / lineM theta

/-- `rightVertical = yPoint + b + width * m` (line 95). -/
noncomputable def rightVertical (rho theta width : ℝ) : ℝ :=
  Real.sin theta * rho + lineB rho theta + width * lineM theta

/-- `bottomHorizontal = (height - yPoint - b) / m` (line 96). -/
noncomputable def bottomHorizontal (rho theta height : ℝ) : ℝ :=
  (height - Real.sin theta * rho - lineB rho theta) / lineM theta

open Classical in
/-- The clipper applied to an already canonicalized line: lines 64–140 of
`DrawLines`.  `none` is a `continue` (no `DrawLine` call for this line);
`some s` means `painter.DrawLine(x + s.x1, y + s.y1, x + s.x2, y + s.y2, …)`
is issued. -/
noncomputable def clipCanon (rho theta width height : ℝ) : Option Seg :=
  if Real.sin theta = 0 then
    some ⟨Real.cos theta * rho, 0, Real.cos theta * rho, height⟩
  else if theta > 0 ∧ theta ≤ Real.pi / 2 then
    some ⟨if leftVertical rho theta ≤ height then 0 else bottomHorizontal rho theta height,
          if leftVertical rho theta ≤ height then leftVertical rho theta else height,
          if topHorizontal rho theta ≤ width then topHorizontal rho theta else width,
          if topHorizontal rho theta ≤ width then 0 else rightVertical rho theta width⟩
  else if theta ≥ Real.pi / 2 ∧ theta ≤ Real.pi then
    if leftVertical rho theta > height then none
    else
      some ⟨0, leftVertical rho theta,
            if bottomHorizontal rho theta height ≤ width then bottomHorizontal rho theta height else width,
            if rightVertical rho theta width ≤ height then rightVertical rho theta width else height⟩
  else if theta ≥ 3 * Real.pi / 2 then
    if topHorizontal rho theta > width then none
    else
      some ⟨topHorizontal rho theta, 0,
            if bottomHorizontal rho theta height ≤ width then bottomHorizontal rho theta height else width,
            if bottomHorizontal rho theta height ≤ width then height else rightVertical rho theta width⟩
  else none

/-- One iteration of the `DrawLines` loop: canonicalize (lines 56–61), then
clip (lines 64–140). -/
noncomputable def clipLine (rho theta width height : ℝ) : Option Seg :=
  clipCanon (canonRho rho) (canonTheta rho theta) width height

/-- A recorded `Painter::DrawLine` call: the four pixel-space endpoint
coordinates and the RGB color. -/
structure DrawCall where
  x1 : ℝ
  y1 : ℝ
  x2 : ℝ
  y2 : ℝ
  red : ℕ
  green : ℕ
  blue : ℕ

/-- `DrawLines` (lines 48–142) as the list of `DrawLine` calls it issues:
for each line in order, the clipped segment (if any) offset by the placement
`(x, y)`. -/
noncomputable def drawLinesCalls (x y width height : ℝ) (lines : List Line)
    (red green blue : ℕ) : List DrawCall :=
  lines.filterMap fun l =>
    (clipLine l.rho l.theta width height).map fun s =>
      ⟨x + s.x1, y + s.y1, x + s.x2, y + s.y2, red, green, blue⟩

/-- The fixed palette `clusterColors` of `DrawLineClusters` (lines 147–154). -/
def clusterColors : List (ℕ × ℕ × ℕ) :=
  [(255, 0, 0), (128, 0, 255), (0, 255, 0), (255, 255, 0),
   (0, 255, 255), (128, 255, 255), (255, 0, 255)]

/-- `DrawLineClusters` (lines 144–164) as the list of `DrawLine` calls it
issues.  Faithful to the source, where the loop counter `x` shadows the
placement parameter `x` and is itself passed as the horizontal placement of
`DrawLines` (line 162): the recorded calls use the cluster index, not the
placement parameter `x`, as the horizontal offset. -/
noncomputable def drawLineClustersCalls (x y width height : ℝ)
    (lineClusters : List (List Line)) : List DrawCall :=
  (List.range lineClusters.length).flatMap fun i =>
    let c := clusterColors.getD (i % clusterColors.length) (0, 0, 0)
    drawLinesCalls (i : ℝ) y width height (lineClusters.getD i []) c.1 c.2.1 c.2.2

/-! ## Helper lemmas about the fold computing the Hough maximum -/

/-- The initial accumulator is a lower bound of the max-fold. -/
theorem foldlMax_init_le (f : ℕ → ℕ) (l : List ℕ) (a : ℕ) :
    a ≤ l.foldl (fun acc j => max acc (f j)) a := by
  induction l generalizing a with
  | nil => exact le_refl a
  | cons x xs ih => exact le_trans (le_max_left a (f x)) (ih (max a (f x)))

/-- Every listed cell's value is a lower bound of the max-fold. -/
theorem foldlMax_le_of_mem (f : ℕ → ℕ) (l : List ℕ) (a i : ℕ) (hi : i ∈ l) :
    f i ≤ l.foldl (fun acc j => max acc (f j)) a := by
  induction l generalizing a with
  | nil => cases hi
  | cons x xs ih =>
    rcases List.mem_cons.mp hi with h | h
    · subst h
      exact le_trans (le_max_right a (f i)) (foldlMax_init_le f xs (max a (f i)))
    · exact ih (max a (f x)) h

/-- The max-fold is bounded by any common upper bound of the initial value and
all listed cell values. -/
theorem foldlMax_le_bound (f : ℕ → ℕ) (l : List ℕ) (a bound : ℕ)
    (ha : a ≤ bound) (hf : ∀ i ∈ l, f i ≤ bound) :
    l.foldl (fun acc j => max acc (f j)) a ≤ bound := by
  induction l generalizing a with
  | nil => exact ha
  | cons x xs ih =>
    exact ih (max a (f x)) (max_le ha (hf x (List.mem_cons_self x xs)))
      (fun i hi => hf i (List.mem_cons_of_mem x hi))

/-! ## Claim theorems: Painter and Hough visualization -/

/-- C1: if `ExtractImage` is called with an empty `srcImage` or with a
`srcPoints` list whose size is not 16, it returns without doing anything and
`dstImage` (width, height and pixel buffer) is exactly what it was before. -/
theorem extractImage_noop_on_bad_input
    (render : List ℚ → List ℕ → Image → ℕ → ℕ → List ℕ)
    (srcImage : Image) (srcPoints : List Point) (sx sy : ℚ) (dstImage : Image)
    (dw dh : ℕ) (h : srcImage.data = [] ∨ srcPoints.length ≠ 16) :
    extractImage render srcImage srcPoints sx sy dstImage dw dh = dstImage := by
  unfold extractImage
  rcases h with h | h
  · rw [if_pos h]
  · by_cases hempty : srcImage.data = []
    · rw [if_pos hempty]
    · rw [if_neg hempty, if_pos h]

/-- Witness for C1: a 17-point list (and separately a 15-point list) leaves a
concrete destination image untouched. -/
theorem extractImage_noop_on_bad_input_witness :
    extractImage (fun _ _ _ _ _ => []) ⟨2, 1, [9, 9, 9, 9, 9, 9]⟩
        (List.replicate 17 ⟨0, 0⟩) 1 1 ⟨1, 1, [1, 2, 3]⟩ 5 5 = ⟨1, 1, [1, 2, 3]⟩ ∧
      extractImage (fun _ _ _ _ _ => []) ⟨2, 1, [9, 9, 9, 9, 9, 9]⟩
        (List.replicate 15 ⟨0, 0⟩) 1 1 ⟨1, 1, [1, 2, 3]⟩ 5 5 = ⟨1, 1, [1, 2, 3]⟩ :=
  ⟨extractImage_noop_on_bad_input _ _ _ _ _ _ _ _ (Or.inr (by decide)),
   extractImage_noop_on_bad_input _ _ _ _ _ _ _ _ (Or.inr (by decide))⟩

/-- C8: for every positive window size, the pixel-to-NDC conversion used by
`DrawLine` and (for the rectangle corners) by `DrawImage` maps pixel `(0, 0)`
to NDC `(-1, 1)` and pixel `(windowWidth, windowHeight)` to NDC `(1, -1)`,
exactly. -/
theorem ndc_corner_mapping (windowWidth windowHeight : ℚ)
    (hW : 0 < windowWidth) (hH : 0 < windowHeight) :
    ndcX windowWidth 0 = -1 ∧ ndcY windowHeight 0 = 1 ∧
      ndcX windowWidth windowWidth = 1 ∧ ndcY windowHeight windowHeight = -1 ∧
      drawImageNDC windowWidth windowHeight 0 0 windowWidth windowHeight =
        (-1, 1, 1, -1) := by
  have hW' : windowWidth ≠ 0 := ne_of_gt hW
  have hH' : windowHeight ≠ 0 := ne_of_gt hH
  refine ⟨?_, ?_, ?_, ?_, ?_⟩ <;>
    simp [ndcX, ndcY, drawImageNDC, div_self hW', div_self hH'] <;> norm_num

/-- Witness for C8 at the program's window size 800 × 600. -/
theorem ndc_corner_mapping_witness :
    ndcX 800 0 = -1 ∧ ndcY 600 0 = 1 ∧ ndcX 800 800 = 1 ∧ ndcY 600 600 = -1 ∧
      drawImageNDC 800 600 0 0 800 600 = (-1, 1, 1, -1) :=
  ndc_corner_mapping 800 600 (by norm_num) (by norm_num)

/-- C10: if some 16-bit accumulator cell is nonzero, the global maximum
computed by `DrawHoughTransform` is strictly positive, so the divisor of the
unguarded rescale factor `255 / maximum` is nonzero. -/
theorem houghMaxValue_pos (frame : Image)
    (h : ∃ i, i < frame.width * frame.height ∧ cellValue frame.data i ≠ 0) :
    0 < houghMaxValue frame ∧ ((houghMaxValue frame : ℚ)) ≠ 0 := by
  obtain ⟨i, hi, hne⟩ := h
  have hle := foldlMax_le_of_mem (cellValue frame.data)
    (List.range (frame.width * frame.height)) 0 i (List.mem_range.mpr hi)
  have hpos : 0 < houghMaxValue frame := by
    unfold houghMaxValue
    omega
  exact ⟨hpos, by exact_mod_cast Nat.pos_iff_ne_zero.mp hpos⟩

/-- Witness for C10 on a 1 × 1 accumulator holding the single count 5. -/
theorem houghMaxValue_pos_witness :
    0 < houghMaxValue ⟨1, 1, [5, 0, 0]⟩ ∧
      ((houghMaxValue ⟨1, 1, [5, 0, 0]⟩ : ℚ)) ≠ 0 :=
  houghMaxValue_pos ⟨1, 1, [5, 0, 0]⟩ ⟨0, by norm_num, by decide⟩

/-- Index arithmetic for the rescaled buffer: inside the cell region the byte
at `3i + k` holds the rescaled value of cell `i`. -/
theorem drawHoughTransformData_getD (frame : Image) (i k : ℕ)
    (hi : i < frame.width * frame.height) (hk : k < 3)
    (hlen : frame.data.length = 3 * (frame.width * frame.height)) :
    (drawHoughTransformData frame).getD (3 * i + k) 0 =
      houghRescaleValue frame i := by
  have hidx : 3 * i + k < frame.data.length := by omega
  have hlt : 3 * i + k < 3 * (frame.width * frame.height) := by omega
  have hdiv : (3 * i + k) / 3 = i := by omega
  simp only [drawHoughTransformData, List.getD_eq_getElem?_getD,
    List.getElem?_map, List.getElem?_range, hidx, Option.map_some',
    Option.getD_some]
  rw [if_pos hlt, hdiv]

/-- C6 counterexample: on the 2 × 1 accumulator with cell counts `(1, 2)` the
code writes the value 127 into the first output cell, while the claimed
formula `round(count · 255 / M)` gives `round(127.5) = 128`. -/
theorem drawHoughTransform_not_round :
    (drawHoughTransformData ⟨2, 1, [1, 0, 0, 2, 0, 0]⟩).getD 0 0 = 127 ∧
      round ((cellValue [1, 0, 0, 2, 0, 0] 0 * 255 : ℚ) /
        (houghMaxValue ⟨2, 1, [1, 0, 0, 2, 0, 0]⟩ : ℚ)) = 128 ∧
      (127 : ℕ) ≠ 128 := by
  have h2 : houghMaxValue ⟨2, 1, [1, 0, 0, 2, 0, 0]⟩ = 2 := by decide
  refine ⟨?_, ?_, by decide⟩
  · have h := drawHoughTransformData_getD ⟨2, 1, [1, 0, 0, 2, 0, 0]⟩ 0 0
      (by decide) (by decide) (by decide)
    simp only [mul_zero, add_zero] at h
    rw [h]
    unfold houghRescaleValue
    rw [show cellValue (⟨2, 1, [1, 0, 0, 2, 0, 0]⟩ : Image).data 0 = 1 from by decide,
      h2]
    have hfl : ((1 : ℕ) : ℚ) * (255 / ((2 : ℕ) : ℚ)) = 255 / 2 := by push_cast; ring
    rw [hfl, show ⌊(255 / 2 : ℚ)⌋ = 127 from Int.floor_eq_iff.mpr (by norm_num)]
    rfl
  · rw [show cellValue [1, 0, 0, 2, 0, 0] 0 = 1 from by decide, h2, round_eq]
    have hfl : ((1 : ℕ) : ℚ) * 255 / ((2 : ℕ) : ℚ) + 1 / 2 = 128 := by
      push_cast
      norm_num
    rw [hfl]
    exact Int.floor_eq_iff.mpr (by norm_num)

/-- C6 (amended): the rescale computes the global maximum `M` and sets every
byte of output cell `i` to the **truncation** `⌊count·255/M⌋` (the `float` →
`unsigned char` conversion truncates; it does not round), replicated into all
3 channels; in particular, for an accumulator with exactly one cell at the
(positive) maximum `V` and all other cells 0, the output has all 3 bytes of
that one cell equal to 255 and every byte of every other cell equal to 0. -/
theorem drawHoughTransform_rescale (frame : Image)
    (hlen : frame.data.length = 3 * (frame.width * frame.height))
    (hpos : 0 < houghMaxValue frame) :
    (∀ i k, i < frame.width * frame.height → k < 3 →
        (drawHoughTransformData frame).getD (3 * i + k) 0 =
          (⌊(cellValue frame.data i * 255 : ℚ) /
            (houghMaxValue frame : ℚ)⌋).toNat) ∧
      (∀ i₀ V, i₀ < frame.width * frame.height → 0 < V →
        cellValue frame.data i₀ = V →
        (∀ j, j < frame.width * frame.height → j ≠ i₀ →
          cellValue frame.data j = 0) →
        (∀ k, k < 3 → (drawHoughTransformData frame).getD (3 * i₀ + k) 0 = 255) ∧
          (∀ j k, j < frame.width * frame.height → j ≠ i₀ → k < 3 →
            (drawHoughTransformData frame).getD (3 * j + k) 0 = 0)) := by
  have hval : ∀ i k, i < frame.width * frame.height → k < 3 →
      (drawHoughTransformData frame).getD (3 * i + k) 0 =
        (⌊(cellValue frame.data i * 255 : ℚ) / (houghMaxValue frame : ℚ)⌋).toNat := by
    intro i k hi hk
    rw [drawHoughTransformData_getD frame i k hi hk hlen]
    unfold houghRescaleValue
    rw [mul_comm (cellValue frame.data i : ℚ) _, div_mul_eq_mul_div,
      mul_comm (255 : ℚ) _]
  refine ⟨hval, ?_⟩
  intro i₀ V hi₀ hV hcell hzero
  have hM : houghMaxValue frame = V := by
    have hge := foldlMax_le_of_mem (cellValue frame.data)
      (List.range (frame.width * frame.height)) 0 i₀ (List.mem_range.mpr hi₀)
    have hle : houghMaxValue frame ≤ V := by
      unfold houghMaxValue
      refine foldlMax_le_bound _ _ _ _ (Nat.zero_le V) ?_
      intro j hj
      rcases eq_or_ne j i₀ with h | h
      · rw [h, hcell]
      · rw [hzero j (List.mem_range.mp hj) h]
        exact Nat.zero_le V
    unfold houghMaxValue at hle ⊢
    rw [hcell] at hge
    omega
  have hVQ : ((V : ℚ)) ≠ 0 := by exact_mod_cast Nat.pos_iff_ne_zero.mp hV
  constructor
  · intro k hk
    rw [hval i₀ k hi₀ hk, hcell, hM]
    rw [mul_comm (V : ℚ) 255, mul_div_assoc, div_self hVQ, mul_one]
    norm_num
    decide
  · intro j k hj hne hk
    rw [hval j k hj hk, hzero j hj hne]
    norm_num

/-- Witness for C6 (amended) on the 1 × 2 accumulator with cell counts
`(0, 7)`: cell 1 rescales to 255 and cell 0 to 0. -/
theorem drawHoughTransform_rescale_witness :
    (drawHoughTransformData ⟨1, 2, [0, 0, 0, 7, 0, 0]⟩).getD (3 * 1 + 0) 0 =
        (⌊(cellValue [0, 0, 0, 7, 0, 0] 1 * 255 : ℚ) /
          (houghMaxValue ⟨1, 2, [0, 0, 0, 7, 0, 0]⟩ : ℚ)⌋).toNat ∧
      (drawHoughTransformData ⟨1, 2, [0, 0, 0, 7, 0, 0]⟩).getD (3 * 1 + 0) 0 = 255 ∧
      (drawHoughTransformData ⟨1, 2, [0, 0, 0, 7, 0, 0]⟩).getD (3 * 0 + 1) 0 = 0 :=
  ⟨(drawHoughTransform_rescale ⟨1, 2, [0, 0, 0, 7, 0, 0]⟩ (by decide) (by decide)).1
      1 0 (by norm_num) (by norm_num),
   ((drawHoughTransform_rescale ⟨1, 2, [0, 0, 0, 7, 0, 0]⟩ (by decide) (by decide)).2
      1 7 (by norm_num) (by norm_num) (by decide) (by decide)).1 0 (by norm_num),
   ((drawHoughTransform_rescale ⟨1, 2, [0, 0, 0, 7, 0, 0]⟩ (by decide) (by decide)).2
      1 7 (by norm_num) (by norm_num) (by decide) (by decide)).2 0 1 (by norm_num)
      (by norm_num) (by norm_num)⟩

/-- C5: for every valid call (16 control points), `ExtractImage` builds 16
vertices forming the regular 4×4 grid `{-1, -1/3, 1/3, 1} × {-1, -1/3, 1/3, 1}`
(spacing `2/3` spanning `[-1,1]×[-1,1]`), where grid vertex `(gx, gy)` carries
texture coordinate `(srcPoints[4·gy+gx].x · srcScaleX,
srcPoints[4·gy+gx].y · srcScaleY)`, and the 3×3 cells are triangulated into
exactly 18 triangles, two per cell, by the fixed index pattern
`(b, b+1, b+5), (b, b+5, b+4)` with `b = 4·cy + cx`, all with the same
(positive) winding. -/
theorem extractImage_mesh (pts : List Point) (sx sy : ℚ)
    (hlen : pts.length = 16) :
    (extractVertices pts sx sy).length = 16 * 5 ∧
      (∀ gy gx, gy < 4 → gx < 4 →
        ((extractVertices pts sx sy).drop (5 * (gy * 4 + gx))).take 5 =
          [-1 + (gx : ℚ) * 2 / 3, -1 + (gy : ℚ) * 2 / 3, 0,
           (pts.getD (gy * 4 + gx) ⟨0, 0⟩).x * sx,
           (pts.getD (gy * 4 + gx) ⟨0, 0⟩).y * sy]) ∧
      (∀ i, i < 16 →
        meshPosX i ∈ ([-1, -1/3, 1/3, 1] : List ℚ) ∧
          meshPosY i ∈ ([-1, -1/3, 1/3, 1] : List ℚ) ∧
          (extractVertices pts sx sy).getD (5 * i) 0 = meshPosX i ∧
          (extractVertices pts sx sy).getD (5 * i + 1) 0 = meshPosY i) ∧
      extractIndices.length = 18 * 3 ∧
      (∀ cy cx, cy < 3 → cx < 3 →
        (extractIndices.drop (6 * (cy * 3 + cx))).take 6 =
          [cy * 4 + cx, cy * 4 + cx + 1, cy * 4 + cx + 5,
           cy * 4 + cx, cy * 4 + cx + 5, cy * 4 + cx + 4]) ∧
      (∀ t, t < 18 → 0 < triCross t) := by
  refine ⟨rfl, ?_, ?_, rfl, ?_, ?_⟩
  · intro gy gx hgy hgx
    interval_cases gy <;> interval_cases gx <;> rfl
  · intro i hi
    interval_cases i <;>
      exact ⟨by norm_num [meshPosX], by norm_num [meshPosY], rfl, rfl⟩
  · intro cy cx hcy hcx
    interval_cases cy <;> interval_cases cx <;> rfl
  · intro t ht
    interval_cases t <;> norm_num [triCross, meshPosX, meshPosY, extractIndices]

/-- Witness for C5 on 16 copies of the point `(2, 3)` with scales
`(1/2, 1/4)`: the vertex block of grid cell `(gx, gy) = (2, 1)` and the
winding of the first triangle. -/
theorem extractImage_mesh_witness :
    ((extractVertices (List.replicate 16 ⟨2, 3⟩) (1/2) (1/4)).drop
        (5 * (1 * 4 + 2))).take 5 =
      [-1 + ((2 : ℕ) : ℚ) * 2 / 3, -1 + ((1 : ℕ) : ℚ) * 2 / 3, 0,
       ((List.replicate 16 (⟨2, 3⟩ : Point)).getD (1 * 4 + 2) ⟨0, 0⟩).x * (1/2),
       ((List.replicate 16 (⟨2, 3⟩ : Point)).getD (1 * 4 + 2) ⟨0, 0⟩).y * (1/4)] ∧
      0 < triCross 0 :=
  ⟨(extractImage_mesh (List.replicate 16 ⟨2, 3⟩) (1/2) (1/4) (by decide)).2.1
      1 2 (by norm_num) (by norm_num),
   (extractImage_mesh (List.replicate 16 ⟨2, 3⟩) (1/2) (1/4)
      (by decide)).2.2.2.2.2 0 (by norm_num)⟩

/-! ## Claim theorems: the line geometry clipper -/

/-- C9: for every input line with ρ < 0 the canonicalization step produces
`(ρ', θ') = (−ρ, fmod(θ+π, 2π))` with ρ' ≥ 0 (`fmod` being C's truncated
remainder, the `mod` the source uses), and the canonicalized parameters
describe the same point set: `x·cosθ' + y·sinθ' = ρ'` iff
`x·cosθ + y·sinθ = ρ`. -/
theorem canonicalization_preserves_line (rho theta : ℝ) (h : rho < 0) :
    canonRho rho = -rho ∧ 0 ≤ canonRho rho ∧
      canonTheta rho theta = cFmod (theta + Real.pi) (2 * Real.pi) ∧
      ∀ px py : ℝ,
        (px * Real.cos (canonTheta rho theta) +
            py * Real.sin (canonTheta rho theta) = canonRho rho ↔
          px * Real.cos theta + py * Real.sin theta = rho) := by
  have hr : canonRho rho = -rho := if_pos h
  have ht : canonTheta rho theta = cFmod (theta + Real.pi) (2 * Real.pi) :=
    if_pos h
  refine ⟨hr, by rw [hr]; linarith, ht, ?_⟩
  intro px py
  have hk : ∃ k : ℤ, cFmod (theta + Real.pi) (2 * Real.pi) =
      (theta + Real.pi) - k * (2 * Real.pi) := by
    unfold cFmod
    by_cases h0 : 0 ≤ (theta + Real.pi) / (2 * Real.pi)
    · exact ⟨⌊(theta + Real.pi) / (2 * Real.pi)⌋, by rw [if_pos h0]; ring⟩
    · exact ⟨⌈(theta + Real.pi) / (2 * Real.pi)⌉, by rw [if_neg h0]; ring⟩
  obtain ⟨k, hk⟩ := hk
  rw [ht, hk, Real.cos_sub_int_mul_two_pi, Real.sin_sub_int_mul_two_pi,
    Real.cos_add_pi, Real.sin_add_pi, hr]
  constructor <;> intro hh <;> linarith

/-- Witness for C9 at `(ρ, θ) = (−1, 0)`, with the point-set equivalence
instantiated at `(x, y) = (3, 4)`. -/
theorem canonicalization_preserves_line_witness :
    canonRho (-1) = -(-1) ∧ 0 ≤ canonRho (-1) ∧
      canonTheta (-1) 0 = cFmod (0 + Real.pi) (2 * Real.pi) ∧
      (3 * Real.cos (canonTheta (-1) 0) + 4 * Real.sin (canonTheta (-1) 0) =
          canonRho (-1) ↔ 3 * Real.cos 0 + 4 * Real.sin 0 = -1) := by
  obtain ⟨h1, h2, h3, h4⟩ := canonicalization_preserves_line (-1) 0 (by norm_num)
  exact ⟨h1, h2, h3, h4 3 4⟩

/-- C3 counterexample: θ = π lies in `[π, 3π/2)` and ρ = 1 ≥ 0, but the
clipper (in exact arithmetic, where `sin π = 0`) takes the vertical-line
branch and emits a segment instead of dropping the line. -/
theorem clipLine_emits_at_pi :
    (0 : ℝ) ≤ 1 ∧ Real.pi ≤ Real.pi ∧ Real.pi < 3 * Real.pi / 2 ∧
      clipLine 1 Real.pi 10 10 ≠ none := by
  have hpi := Real.pi_pos
  refine ⟨by norm_num, le_refl _, by linarith, ?_⟩
  unfold clipLine
  rw [show canonRho 1 = 1 from if_neg (by norm_num),
    show canonTheta 1 Real.pi = Real.pi from if_neg (by norm_num)]
  unfold clipCanon
  rw [if_pos Real.sin_pi]
  simp

/-- C3 (amended): for every ρ ≥ 0 and every θ strictly inside `(π, 3π/2)` the
clipper emits no segment, so no `DrawLine` call is made for that line.  (At
the boundary θ = π itself, `sin θ = 0` in exact arithmetic and the
vertical-line branch emits — the original closed-left interval is wrong
there.) -/
theorem clipLine_none_in_open_third_quadrant (rho theta width height : ℝ)
    (hrho : 0 ≤ rho) (h1 : Real.pi < theta) (h2 : theta < 3 * Real.pi / 2) :
    clipLine rho theta width height = none := by
  have hpi := Real.pi_pos
  have hsin : Real.sin theta < 0 := by
    have h3 : 0 < Real.sin (theta - Real.pi) :=
      Real.sin_pos_of_pos_of_lt_pi (by linarith) (by linarith)
    have h4 : Real.sin (theta - Real.pi) = -Real.sin theta :=
      Real.sin_sub_pi theta
    linarith
  unfold clipLine
  rw [show canonRho rho = rho from if_neg (not_lt.mpr hrho),
    show canonTheta rho theta = theta from if_neg (not_lt.mpr hrho)]
  unfold clipCanon
  have hc1 : ¬(theta > 0 ∧ theta ≤ Real.pi / 2) := by
    rintro ⟨-, hb⟩
    linarith
  have hc2 : ¬(Real.pi / 2 ≤ theta ∧ theta ≤ Real.pi) := by
    rintro ⟨-, hb⟩
    linarith
  have hc3 : ¬(theta ≥ 3 * Real.pi / 2) := by
    intro hb
    linarith
  rw [if_neg (ne_of_lt hsin), if_neg hc1, if_neg hc2, if_neg hc3]

/-- Witness for C3 (amended) at θ = 4 ∈ (π, 3π/2), ρ = 1. -/
theorem clipLine_none_in_open_third_quadrant_witness :
    Real.pi < 4 ∧ (4 : ℝ) < 3 * Real.pi / 2 ∧ clipLine 1 4 10 10 = none := by
  have hlt : Real.pi < 4 := Real.pi_lt_four
  have hgt : (4 : ℝ) < 3 * Real.pi / 2 := by linarith [Real.pi_gt_three]
  exact ⟨hlt, hgt,
    clipLine_none_in_open_third_quadrant 1 4 10 10 (by norm_num) hlt hgt⟩

/-- C4 counterexample: θ = π is canonical (ρ = 1 ≥ 0) with sin θ = 0 and
cos θ = −1; the emitted full-height vertical segment (zero placement offset)
sits at horizontal offset −1 = ρ·cosθ, not at +1 = ρ as the claim's
`(x+ρ, y)–(x+ρ, y+height)` requires. -/
theorem clipLine_vertical_offset_counterexample :
    Real.sin Real.pi = 0 ∧ (0 : ℝ) ≤ 1 ∧
      drawLinesCalls 0 0 10 10 [⟨1, Real.pi⟩] 255 0 0 =
        [⟨-1, 0, -1, 10, 255, 0, 0⟩] ∧
      drawLinesCalls 0 0 10 10 [⟨1, Real.pi⟩] 255 0 0 ≠
        [⟨0 + 1, 0, 0 + 1, 0 + 10, 255, 0, 0⟩] := by
  have hclip : clipLine 1 Real.pi 10 10 = some ⟨-1, 0, -1, 10⟩ := by
    unfold clipLine
    rw [show canonRho 1 = 1 from if_neg (by norm_num),
      show canonTheta 1 Real.pi = Real.pi from if_neg (by norm_num)]
    unfold clipCanon
    rw [if_pos Real.sin_pi, Real.cos_pi]
    norm_num
  have hcalls : drawLinesCalls 0 0 10 10 [⟨1, Real.pi⟩] 255 0 0 =
      [⟨-1, 0, -1, 10, 255, 0, 0⟩] := by
    simp [drawLinesCalls, hclip]
  refine ⟨Real.sin_pi, by norm_num, hcalls, ?_⟩
  rw [hcalls]
  intro hcontr
  have h1 := List.head_eq_of_cons_eq hcontr
  simp only [DrawCall.mk.injEq] at h1
  norm_num at h1

/-- C4 (amended): for every canonicalized line (ρ ≥ 0) with sin θ = 0, the
clipper emits the full-height vertical segment at horizontal offset ρ·cosθ
(for cosθ = −1 that is −ρ, not +ρ): the one `DrawLine` call is
`(x + ρ·cosθ, y)–(x + ρ·cosθ, y + height)`; in particular for θ = 0, where
cos θ = 1, the call with zero placement offset is exactly
`(ρ, 0)–(ρ, height)`. -/
theorem clipLine_vertical (rho theta width height x y : ℝ) (r g b : ℕ)
    (hrho : 0 ≤ rho) (hs : Real.sin theta = 0) :
    drawLinesCalls x y width height [⟨rho, theta⟩] r g b =
        [⟨x + Real.cos theta * rho, y + 0, x + Real.cos theta * rho,
          y + height, r, g, b⟩] ∧
      drawLinesCalls 0 0 width height [⟨rho, 0⟩] r g b =
        [⟨rho, 0, rho, height, r, g, b⟩] := by
  have hclip : ∀ t, Real.sin t = 0 → clipLine rho t width height =
      some ⟨Real.cos t * rho, 0, Real.cos t * rho, height⟩ := by
    intro t hst
    unfold clipLine
    rw [show canonRho rho = rho from if_neg (not_lt.mpr hrho),
      show canonTheta rho t = t from if_neg (not_lt.mpr hrho)]
    unfold clipCanon
    rw [if_pos hst]
  constructor
  · simp [drawLinesCalls, hclip theta hs]
  · simp [drawLinesCalls, hclip 0 Real.sin_zero, Real.cos_zero]

/-- Witness for C4 (amended) at ρ = 2, θ = 0, placement (3, 4), rectangle
9 × 7. -/
theorem clipLine_vertical_witness :
    (0 : ℝ) ≤ 2 ∧ Real.sin 0 = 0 ∧
      drawLinesCalls 3 4 9 7 [⟨2, 0⟩] 255 0 0 =
        [⟨3 + Real.cos 0 * 2, 4 + 0, 3 + Real.cos 0 * 2, 4 + 7, 255, 0, 0⟩] ∧
      drawLinesCalls 0 0 9 7 [⟨2, 0⟩] 255 0 0 = [⟨2, 0, 2, 7, 255, 0, 0⟩] :=
  ⟨by norm_num, Real.sin_zero,
    (clipLine_vertical 2 0 9 7 3 4 255 0 0 (by norm_num) Real.sin_zero).1,
    (clipLine_vertical 2 0 9 7 3 4 255 0 0 (by norm_num) Real.sin_zero).2⟩

/-- C7: `DrawLineClusters`'s loop counter `x` shadows its placement parameter
`x` and is passed to `DrawLines` as the horizontal placement (line 162), so
cluster `i`'s lines are offset by `i`, not by the caller-supplied `x`: with
caller placement (100, 0) the single cluster's (vertical, θ = 0, ρ = 0) line
is drawn from (0, 0) to (0, 10) — horizontal offset 0, the cluster index —
although the spec requires the caller's offset 100.  The color is
`palette[0] = (255, 0, 0)` as specified. -/
theorem drawLineClusters_uses_index_as_offset :
    drawLineClustersCalls 100 0 10 10 [[⟨0, 0⟩]] =
        [⟨0, 0, 0, 10, 255, 0, 0⟩] ∧
      (0 : ℝ) ≠ 100 := by
  have hclip : clipLine 0 0 10 10 = some ⟨0, 0, 0, 10⟩ := by
    unfold clipLine
    rw [show canonRho 0 = 0 from if_neg (by norm_num),
      show canonTheta 0 0 = 0 from if_neg (by norm_num)]
    unfold clipCanon
    rw [if_pos Real.sin_zero, Real.cos_zero]
    norm_num
  refine ⟨?_, by norm_num⟩
  simp only [drawLineClustersCalls]
  rw [show List.range ([[⟨0, 0⟩]] : List (List Line)).length = [0] from rfl]
  simp [drawLinesCalls, clusterColors, hclip]

/-! ## Closed forms of the clipper's edge intersections (for `sin θ ≠ 0`) -/

